import Mathlib

/-
Verification development for the order/reminder bot in `main.py`.

The Python source is shallowly embedded below: strings are Lean `String`s
(processed as their `List Char` views), Python dicts keyed by strings or
user ids become insertion-ordered association lists, datetimes at the date
parser's level become a record of calendar fields, and epoch-second `Int`
timestamps are used where only comparisons and day arithmetic matter.
Regular-expression scans used by the parsers are embedded as explicit
left-to-right scanners with the same leftmost-match and greedy/lazy
behaviour as the Python patterns on the character classes involved
(ASCII digits for `\d`, ASCII whitespace for `\s`).
-/

namespace DiscordBot

/-- Python `\s` / `str.strip` whitespace, restricted to the ASCII range. -/
def isPyWs (c : Char) : Bool :=
  c = ' ' ∨ c = '\t' ∨ c = '\n' ∨ c = '\r' ∨ c = '\x0b' ∨ c = '\x0c'

/-- Numeric value of an ASCII digit character (as Python `int` reads it). -/
def digitVal (c : Char) : Nat := c.toNat - 48

/-- Value of a string of decimal digit characters (Python `int` on a digit capture). -/
def digitsVal (l : List Char) : Nat := l.foldl (fun a c => 10 * a + digitVal c) 0

/-- Greedy skip of leading whitespace (`\s*`). -/
def skipWs : List Char → List Char
  | [] => []
  | c :: rest => if isPyWs c then skipWs rest else c :: rest

/-- Greedy span of leading decimal digits; returns (digits, rest). -/
def spanDigits : List Char → List Char × List Char
  | [] => ([], [])
  | c :: rest =>
    if c.isDigit then
      let p := spanDigits rest
      (c :: p.1, p.2)
    else ([], c :: rest)

/-- Python `str.strip()` on the character list (ASCII whitespace). -/
def trimChars (l : List Char) : List Char :=
  ((l.dropWhile isPyWs).reverse.dropWhile isPyWs).reverse

/-- `item.replace("×", "x")`: single-character replacement. -/
def replaceTimes (l : List Char) : List Char :=
  l.map (fun c => if c = '×' then 'x' else c)

/-- Does `sep` occur at the head of `l`? -/
def isPrefixList : List Char → List Char → Bool
  | [], _ => true
  | _ :: _, [] => false
  | s :: ss, c :: cs => s = c ∧ isPrefixList ss cs

/-- First occurrence of (nonempty) `sep` in `l`: `some (before, after)` or `none`.
This is the engine behind Python `sep in s`, `s.split(sep)[0]` and `s.split(sep)[1]`. -/
def splitAtFirst (sep : List Char) : List Char → Option (List Char × List Char)
  | [] => none
  | c :: rest =>
    if isPrefixList sep (c :: rest) then some ([], List.drop sep.length (c :: rest))
    else
      match splitAtFirst sep rest with
      | some p => some (c :: p.1, p.2)
      | none => none

/-- Python `sep in s`. -/
def pyIn (sep l : List Char) : Bool := (splitAtFirst sep l).isSome

/-- Python `s.split(sep)[0]`: everything before the first occurrence (whole string if none). -/
def splitIdx0 (sep l : List Char) : List Char :=
  match splitAtFirst sep l with
  | some p => p.1
  | none => l

/-- Python `s.split(sep)[1]`: the segment between the first and second occurrence
(callers guard with `sep in s`, so the `none` branch is unreachable there). -/
def splitIdx1 (sep l : List Char) : List Char :=
  match splitAtFirst sep l with
  | some p => splitIdx0 sep p.2
  | none => []

/-- Python `s.split(sep)` for a single-character separator; always returns ≥ 1 part. -/
def pySplit1 (sep : Char) : List Char → List (List Char)
  | [] => [[]]
  | c :: rest =>
    let r := pySplit1 sep rest
    if c = sep then [] :: r
    else
      match r with
      | p :: ps => (c :: p) :: ps
      | [] => [[c]]

/-- Python `int(s)` on an already-stripped string: optional sign then ASCII digits
(`None` models the `ValueError` the cache code catches; exotic forms such as
underscores or non-ASCII digits are outside the inputs this repo handles). -/
def pyInt (s : String) : Option Int :=
  match s.data with
  | [] => none
  | '-' :: ds => if ds ≠ [] ∧ ds.all Char.isDigit then some (-(digitsVal ds : Int)) else none
  | '+' :: ds => if ds ≠ [] ∧ ds.all Char.isDigit then some ((digitsVal ds : Int)) else none
  | ds => if ds.all Char.isDigit then some ((digitsVal ds : Int)) else none

/-- Insertion-ordered association-list lookup (first binding wins), i.e. Python `d.get(k)`. -/
def alistGet {κ α : Type} [DecidableEq κ] : List (κ × α) → κ → Option α
  | [], _ => none
  | kv :: rest, k => if kv.1 = k then some kv.2 else alistGet rest k

/-- `d.get(k, dflt)`. -/
def alistGetD {κ α : Type} [DecidableEq κ] (l : List (κ × α)) (k : κ) (dflt : α) : α :=
  (alistGet l k).getD dflt

/-- Python `d[k] = v`: replace the first binding in place, or append a new one. -/
def alistSet {κ α : Type} [DecidableEq κ] : List (κ × α) → κ → α → List (κ × α)
  | [], k, v => [(k, v)]
  | kv :: rest, k, v => if kv.1 = k then (kv.1, v) :: rest else kv :: alistSet rest k v

/-- Python `d[k] = d.get(k, 0) + v` for an `int`-valued dict. -/
def dictAdd : List (String × Int) → String → Int → List (String × Int)
  | [], k, v => [(k, v)]
  | kv :: rest, k, v => if kv.1 = k then (kv.1, kv.2 + v) :: rest else kv :: dictAdd rest k v

/-- `sum(d.values())`. -/
def sumValues (d : List (String × Int)) : Int := (d.map (fun kv => kv.2)).sum

/-! ## DateParser: `ParserService.parse_pickup_date_smart`

The four `re.search` patterns are embedded as scanners over the character
list that try every start position left to right (exactly `re.search`'s
leftmost-match rule) and parse the pattern at a position directly.  The
bounded quantifier `\d{1,2}` is followed in every pattern either by a
non-digit literal or by the end of the pattern, so the regex backtracking
collapses to a greedy two-then-one digit take. -/

/-- `(\d{4})` at the current position. -/
def take4Digits : List Char → Option (Nat × List Char)
  | a :: b :: c :: d :: rest =>
    if a.isDigit && b.isDigit && c.isDigit && d.isDigit then
      some (1000 * digitVal a + 100 * digitVal b + 10 * digitVal c + digitVal d, rest)
    else none
  | _ => none

/-- `(\d{1,2})` at the current position (greedy). -/
def takeUpTo2 : List Char → Option (Nat × List Char)
  | [] => none
  | [a] => if a.isDigit then some (digitVal a, []) else none
  | a :: b :: rest =>
    if a.isDigit then
      if b.isDigit then some (10 * digitVal a + digitVal b, rest)
      else some (digitVal a, b :: rest)
    else none

/-- A literal character of the pattern. -/
def litChar (x : Char) : List Char → Option (List Char)
  | [] => none
  | c :: rest => if c = x then some rest else none

/-- `(\d{4})年(\d{1,2})月(\d{1,2})日` anchored at the current position. -/
def matchP1At (l : List Char) : Option (Nat × Nat × Nat) := do
  let (y, l) ← take4Digits l
  let l ← litChar '年' l
  let (m, l) ← takeUpTo2 l
  let l ← litChar '月' l
  let (d, l) ← takeUpTo2 l
  let _ ← litChar '日' l
  pure (y, m, d)

/-- `(\d{4})-(\d{1,2})-(\d{1,2})` anchored at the current position. -/
def matchP2At (l : List Char) : Option (Nat × Nat × Nat) := do
  let (y, l) ← take4Digits l
  let l ← litChar '-' l
  let (m, l) ← takeUpTo2 l
  let l ← litChar '-' l
  let (d, _) ← takeUpTo2 l
  pure (y, m, d)

/-- `(\d{1,2})/(\d{1,2})/(\d{4})` anchored at the current position (day first). -/
def matchP3At (l : List Char) : Option (Nat × Nat × Nat) := do
  let (d, l) ← takeUpTo2 l
  let l ← litChar '/' l
  let (m, l) ← takeUpTo2 l
  let l ← litChar '/' l
  let (y, _) ← take4Digits l
  pure (d, m, y)

/-- `(\d{1,2})/(\d{1,2})` anchored at the current position. -/
def matchP4At (l : List Char) : Option (Nat × Nat) := do
  let (a, l) ← takeUpTo2 l
  let l ← litChar '/' l
  let (b, _) ← takeUpTo2 l
  pure (a, b)

/-- `re.search`: try the anchored matcher at every start position, left to right. -/
def searchFirst {α : Type} (m : List Char → Option α) : List Char → Option α
  | [] => m []
  | c :: rest =>
    match m (c :: rest) with
    | some r => some r
    | none => searchFirst m rest

/-- The naive-then-localized `datetime` produced on a successful parse:
`HK_TZ.localize(datetime(y, mth, d, 9, 0))`, kept as its calendar fields. -/
structure PickupDT where
  year : Nat
  month : Nat
  day : Nat
  hour : Nat
  minute : Nat
deriving DecidableEq, Repr

def isLeapYear (y : Nat) : Bool := y % 4 = 0 ∧ (y % 100 ≠ 0 ∨ y % 400 = 0)

def daysInMonth (y m : Nat) : Nat :=
  if m = 2 then (if isLeapYear y then 29 else 28)
  else if m = 4 ∨ m = 6 ∨ m = 9 ∨ m = 11 then 30 else 31

/-- The dates `datetime(y, m, d, ...)` accepts; anything else raises `ValueError`,
which the parser's surrounding `try` turns into a `(None, None)` result. -/
def datetimeValid (y m d : Nat) : Bool :=
  1 ≤ y ∧ y ≤ 9999 ∧ 1 ≤ m ∧ m ≤ 12 ∧ 1 ≤ d ∧ d ≤ daysInMonth y m

/-- Two-digit zero-padded decimal rendering, as `strftime` pads `%y`, `%m`, `%d`. -/
def pad2 (n : Nat) : String := String.mk [Nat.digitChar (n / 10 % 10), Nat.digitChar (n % 10)]

/-- `dt.strftime("%y%m%d")`: the six-digit day-key. -/
def dayKeyOf (y m d : Nat) : String := pad2 (y % 100) ++ pad2 m ++ pad2 d

/-- Build the `(timestamp, day-key)` pair; an invalid calendar date models the
`ValueError` escaping to the `except` arm, i.e. the whole parse returns nothing. -/
def mkPickup (y m d : Nat) : Option (PickupDT × String) :=
  if datetimeValid y m d then some (⟨y, m, d, 9, 0⟩, dayKeyOf y m d) else none

/-- The `1 <= mth <= 12 and 1 <= d <= 31` guard shared by all four patterns. -/
def rangeOk (m d : Nat) : Bool := 1 ≤ m ∧ m ≤ 12 ∧ 1 ≤ d ∧ d ≤ 31

/-- Pattern 4: `A/B` with the current year and the first-number disambiguation. -/
def tryP4 (nowYear : Nat) (l : List Char) : Option (PickupDT × String) :=
  match searchFirst matchP4At l with
  | some (a, b) =>
    let d := if a > 12 then a else b
    let m := if a > 12 then b else a
    if rangeOk m d then mkPickup nowYear m d else none
  | none => none

/-- Pattern 3: `D/M/YYYY`; on an out-of-range match fall through to pattern 4. -/
def tryP3 (nowYear : Nat) (l : List Char) : Option (PickupDT × String) :=
  match searchFirst matchP3At l with
  | some (d, m, y) => if rangeOk m d then mkPickup y m d else tryP4 nowYear l
  | none => tryP4 nowYear l

/-- Pattern 2: `YYYY-M-D`; on an out-of-range match fall through to pattern 3. -/
def tryP2 (nowYear : Nat) (l : List Char) : Option (PickupDT × String) :=
  match searchFirst matchP2At l with
  | some (y, m, d) => if rangeOk m d then mkPickup y m d else tryP3 nowYear l
  | none => tryP3 nowYear l

/-- `InputValidator.validate_pickup_date`: nonempty and at most 100 characters. -/
def validate_pickup_date (s : String) : Bool := s.data ≠ [] ∧ s.data.length ≤ 100

/-- `ParserService.parse_pickup_date_smart`.  `nowYear` is `datetime.now(HK_TZ).year`,
consulted only by the year-less `A/B` pattern. -/
def parse_pickup_date_smart (nowYear : Nat) (s : String) : Option (PickupDT × String) :=
  if validate_pickup_date s = false then none
  else
    match searchFirst matchP1At s.data with
    | some (y, m, d) => if rangeOk m d then mkPickup y m d else tryP2 nowYear s.data
    | none => tryP2 nowYear s.data

/-! ## ContentParser: `ParserService.normalize_sizes`, `parse_order_content_smart` -/

/-- The inch-mark class `["″“”]` of `normalize_sizes`. -/
def isQuoteMark (c : Char) : Bool := c = '\"' ∨ c = '″' ∨ c = '“' ∨ c = '”'

/-- Match `(\d+\.?\d*)\s*["″“”]` anchored at the current position; returns the
captured number text and the rest after the whole match. -/
def matchNumQuote (l : List Char) : Option (List Char × List Char) :=
  match spanDigits l with
  | ([], _) => none
  | (ds, rest) =>
    let g : List Char × List Char :=
      match rest with
      | '.' :: r2 =>
        let p := spanDigits r2
        (ds ++ '.' :: p.1, p.2)
      | _ => (ds, rest)
    match skipWs g.2 with
    | c :: r3 => if isQuoteMark c then some (g.1, r3) else none
    | [] => none

/-- `re.sub` scan for `normalize_sizes`; `fuel` starts at the list length and
each step consumes at least one character, so it never runs out. -/
def normalizeAux : Nat → List Char → List Char
  | 0, l => l
  | _ + 1, [] => []
  | fuel + 1, c :: rest =>
    if c.isDigit then
      match matchNumQuote (c :: rest) with
      | some (g, r) => g ++ ' ' :: '\"' :: normalizeAux fuel r
      | none => c :: normalizeAux fuel rest
    else c :: normalizeAux fuel rest

/-- `ParserService.normalize_sizes`: rewrite `6"` to `6 "`. -/
def normalize_sizes (l : List Char) : List Char := normalizeAux l.length l

/-- Group-1 class `[^×\n]` of the item pattern. -/
def groupOk (c : Char) : Bool := ¬ (c = '×' ∨ c = '\n')

/-- The tail `\s*(?:×|x)\s*(\d+)` of the item pattern, anchored right after the
lazily grown product group; returns the digit capture and the rest. -/
def afterProduct (l : List Char) : Option (List Char × List Char) :=
  match skipWs l with
  | [] => none
  | c :: r =>
    if c = '×' ∨ c = 'x' then
      match spanDigits (skipWs r) with
      | ([], _) => none
      | (ds, rest) => some (ds, rest)
    else none

/-- Lazy growth of the `[^×\n]+?` product group: shortest prefix (of length ≥ 1)
after which the rest of the pattern matches. -/
def expandGroup (acc : List Char) : List Char → Option (List Char × List Char × List Char)
  | [] => none
  | c :: rest =>
    if groupOk c then
      match afterProduct rest with
      | some (ds, r) => some (acc ++ [c], ds, r)
      | none => expandGroup (acc ++ [c]) rest
    else none

/-- `re.findall` scan for `([^×\n]+?)\s*(?:×|x)\s*(\d+)`: leftmost match, then
continue after the match end.  `fuel` starts at the list length; every step
consumes at least one character. -/
def findAllAux : Nat → List Char → List (List Char × List Char)
  | 0, _ => []
  | _ + 1, [] => []
  | fuel + 1, c :: rest =>
    match expandGroup [] (c :: rest) with
    | some (p, ds, r) => (p, ds) :: findAllAux fuel r
    | none => findAllAux fuel rest

def findAllItems (l : List Char) : List (List Char × List Char) := findAllAux l.length l

/-- The three stop markers that truncate the order-content section. -/
def stopKws : List (List Char) := ["總數".data, "取貨日期".data, "交收方式".data]

/-- The section-marker literal `訂單內容`. -/
def contentMarker : List Char := "訂單內容".data

/-- The processed order-content section: `text.split("訂單內容")[1]`, truncated at
each present stop keyword, stripped, then size-normalized. -/
def orderContentOf (text : String) : List Char :=
  let cp0 := splitIdx1 contentMarker text.data
  let cp1 := stopKws.foldl (fun cp kw => if pyIn kw cp then splitIdx0 kw cp else cp) cp0
  normalize_sizes (trimChars cp1)

/-- `InputValidator.is_reasonable_quantity`: `0 < qty <= 1000`. -/
def is_reasonable_quantity (qty : Nat) : Bool := 0 < qty ∧ qty ≤ 1000

/-- The primary-strategy loop body: strip the product, keep it when nonempty and
under the length ceiling, and append the item when the quantity is reasonable.
The source's `except: items.append(f"{product} × 1")` arm is unreachable:
the quantity capture is a nonempty digit string, on which `int` cannot raise. -/
def itemsOfMatches : List (List Char × List Char) → List String
  | [] => []
  | (p, ds) :: rest =>
    let product := trimChars p
    if product ≠ [] ∧ product.length < 100 then
      let qty_int := digitsVal ds
      if is_reasonable_quantity qty_int then
        (String.mk product ++ " × " ++ toString qty_int) :: itemsOfMatches rest
      else itemsOfMatches rest
    else itemsOfMatches rest

/-- The fallback strategy: one item of quantity 1 per nonempty non-stop-label line. -/
def fallbackLines (content : List Char) : List String :=
  (pySplit1 '\n' content).filterMap (fun ln =>
    let l := trimChars ln
    if l ≠ [] ∧ l.length < 100 ∧ String.mk l ≠ "總數" ∧ String.mk l ≠ "取貨日期" then
      some (String.mk l ++ " × 1")
    else none)

/-- `ParserService.parse_order_content_smart`. -/
def parse_order_content_smart (text : String) : List String :=
  if pyIn contentMarker text.data = false then []
  else
    let content := orderContentOf text
    let ms := findAllItems content
    if ms ≠ [] then itemsOfMatches ms
    else fallbackLines content

/-- The primary-strategy per-match rule as the (amended) specification words it:
the product text is trimmed and kept only if nonempty and under the length
ceiling; the quantity is accepted as-is when it lies within the
reasonable-quantity bound 1–1000, and otherwise the match yields no item. -/
def specAcceptMatch (pq : List Char × List Char) : Option String :=
  let product := trimChars pq.1
  let qty := digitsVal pq.2
  if product ≠ [] ∧ product.length < 100 ∧ 1 ≤ qty ∧ qty ≤ 1000 then
    some (String.mk product ++ " × " ++ toString qty)
  else none

/-! ## Consolidator: `ParserService.consolidate_items` -/

/-- The per-item split of `consolidate_items`: when the item contains `×` or `x`,
replace `×` by `x`, split on `x`, take the stripped part before the first `x`
as the product name and parse the stripped part after the last `x` as the
quantity (defaulting to 1 when `int` raises). -/
def parseItemKeyQty (item : String) : String × Int :=
  if item.data.contains '×' ∨ item.data.contains 'x' then
    let parts := pySplit1 'x' (replaceTimes item.data)
    let product_name := String.mk (trimChars (parts.headD []))
    let qty :=
      match pyInt (String.mk (trimChars (parts.getLastD []))) with
      | some n => n
      | none => 1
    (product_name, qty)
  else (String.mk (trimChars item.data), 1)

/-- The loop body of `consolidate_items`: accumulate an item's entry when its
name is nonempty and its quantity lies in `1..1000`. -/
def consolidateStep (consolidated : List (String × Int)) (item : String) : List (String × Int) :=
  let e := parseItemKeyQty item
  if e.1 ≠ "" ∧ 1 ≤ e.2 ∧ e.2 ≤ 1000 then dictAdd consolidated e.1 e.2
  else consolidated

/-- `ParserService.consolidate_items`. -/
def consolidate_items (items_list : List String) : List (String × Int) :=
  items_list.foldl consolidateStep []

/-- The entry an item contributes to the consolidation, if any (the accepted
`(product_name, qty)` pair of one `consolidate_items` loop iteration). -/
def processedEntry (item : String) : Option (String × Int) :=
  let e := parseItemKeyQty item
  if e.1 ≠ "" ∧ 1 ≤ e.2 ∧ e.2 ≤ 1000 then some e else none

/-- The quantity an item contributes to a given product key. -/
def contribOf (k : String) (item : String) : Int :=
  match processedEntry item with
  | some e => if e.1 = k then e.2 else 0
  | none => 0

/-- Does an item contribute to a given product key at all? -/
def hitsKey (k : String) (item : String) : Bool :=
  match processedEntry item with
  | some e => e.1 = k
  | none => false

/-! ## OrderCache: `OrderService.add_order` and the report totals -/

/-- The order record built by `OrderService.add_order`. -/
structure OrderRec where
  yymmdd : String
  yymm : String
  author : String
  jump_url : String
  pickup_date : String
  deal_method : String
  phone : String
  remark : String
  full_message : String
  timestamp : String
deriving DecidableEq, Repr

/-- The in-memory `orders_cache`: day-key → list of orders, insertion ordered. -/
abbrev OrderCache := List (String × List OrderRec)

/-- `if yymmdd not in self.cache: self.cache[yymmdd] = []`. -/
def ensureKey (c : OrderCache) (k : String) : OrderCache :=
  if (alistGet c k).isSome then c else c ++ [(k, [])]

/-- `OrderService.add_order`.  `db` is the orders persistence collaborator, seen
as the list of records inserted so far; `nowIso` is `datetime.now(HK_TZ).isoformat()`.
Returns (inserted?, new cache, new persisted list). -/
def add_order (c : OrderCache) (db : List OrderRec)
    (author jump_url pickup_date yymmdd deal_method phone remark full_message nowIso : String) :
    Bool × OrderCache × List OrderRec :=
  let c1 := ensureKey c yymmdd
  let lst := alistGetD c1 yymmdd []
  if lst.any (fun o => o.jump_url = jump_url) then (false, c1, db)
  else
    let obj : OrderRec :=
      { yymmdd := yymmdd, yymm := String.mk (yymmdd.data.take 4), author := author,
        jump_url := jump_url, pickup_date := pickup_date, deal_method := deal_method,
        phone := phone, remark := remark, full_message := full_message, timestamp := nowIso }
    (true, alistSet c1 yymmdd (lst ++ [obj]), db ++ [obj])

/-- One order's consolidated items, as both report paths compute them. -/
def orderItems (o : OrderRec) : List (String × Int) :=
  consolidate_items (parse_order_content_smart o.full_message)

/-- Folding one order's consolidated items into an accumulation dict
(the inner `for product, qty in consolidated.items()` loop). -/
def accumOrder (d : List (String × Int)) (o : OrderRec) : List (String × Int) :=
  (orderItems o).foldl (fun d pq => dictAdd d pq.1 pq.2) d

/-- The `all_items` dict of `format_orders_content` (also the `daily_items`
dict of `format_month_content`) for one day's order list. -/
def dayItems (orders : List OrderRec) : List (String × Int) :=
  orders.foldl accumOrder []

/-- The `總數` total printed by `format_orders_content` for a day-key. -/
def format_orders_content_total (c : OrderCache) (yymmdd : String) : Int :=
  sumValues (dayItems (alistGetD c yymmdd []))

/-- The day subtotal printed per day by `format_month_content`. -/
def month_day_subtotal (orders : List OrderRec) : Int := sumValues (dayItems orders)

/-- `{k: v for k, v in self.cache.items() if k.startswith(yymm)}`. -/
def monthMatching (c : OrderCache) (yymm : String) : OrderCache :=
  c.filter (fun kv => yymm.isPrefixOf kv.1)

/-- Insertion step of the `sorted(matching.keys())` ordering. -/
def insertByKey (x : String × List OrderRec) :
    List (String × List OrderRec) → List (String × List OrderRec)
  | [] => [x]
  | y :: ys => if x.1 < y.1 then x :: y :: ys else y :: insertByKey x ys

/-- `sorted(matching.keys())`: the month report visits days in ascending key order. -/
def sortByKey (l : List (String × List OrderRec)) : List (String × List OrderRec) :=
  l.foldr insertByKey []

/-- The `total_all_items` dict of `format_month_content`: accumulated across all
matching days in sorted order, in parallel with the per-day dicts. -/
def month_total_all_items (c : OrderCache) (yymm : String) : List (String × Int) :=
  (sortByKey (monthMatching c yymm)).foldl (fun acc kv => kv.2.foldl accumOrder acc) []

/-- The `Month Total` printed by `format_month_content`. -/
def format_month_content_total (c : OrderCache) (yymm : String) : Int :=
  sumValues (month_total_all_items c yymm)

/-- A one-order sample cache used to exercise the report paths on concrete data. -/
def sampleCacheC5 : OrderCache :=
  [("250102", [{ yymmdd := "250102", yymm := "2501", author := "a", jump_url := "u",
                 pickup_date := "p", deal_method := "d", phone := "ph", remark := "r",
                 full_message := "訂單內容 A x 2", timestamp := "t" }])]

/-! ## ReminderScheduler: `ReminderService.add_reminder` and `check_reminders` -/

/-- The reminder record built by `ReminderService.add_reminder` (`sent` starts false). -/
structure ReminderRec where
  time : Int
  message : String
  author : String
  jump_url : String
  pickup_date : String
  deal_method : String
  phone : String
  remark : String
  summary_only : Bool
  sent : Bool
deriving DecidableEq, Repr

/-- Channel configuration consulted by the sweep. -/
structure SweepCfg where
  reminderChannelId : Int
  todayChannelId : Int
deriving DecidableEq, Repr

/-- Per-reminder external outcomes during one sweep: whether `fetch_user` for the
target resolves, whether the channel for the non-summary branch resolves, and
whether the outbound delivery raises. -/
structure SweepEnv where
  targetUserFound : Bool
  channelFound : Bool
  deliveryRaises : Bool
deriving DecidableEq, Repr

/-- The state effect of `check_reminders` on one reminder: a due, unsent
reminder is marked sent; every other reminder is untouched. -/
def sweepUpdate (now : Int) (r : ReminderRec) : ReminderRec :=
  if now ≥ r.time ∧ r.sent = false then { r with sent := true } else r

/-- One iteration of the `check_reminders` inner loop, with its external
outcomes explicit.  Returns the updated reminder and whether an outbound
delivery call was made.  Both the success path and the inner `except` arm
set `sent`; when the target user cannot be fetched the reminder is marked
sent without any delivery call. -/
def sweepOneE (cfg : SweepCfg) (e : SweepEnv) (now : Int) (r : ReminderRec) :
    ReminderRec × Bool :=
  if now ≥ r.time ∧ r.sent = false then
    if e.targetUserFound = false then ({ r with sent := true }, false)
    else
      let attempted :=
        if r.summary_only ∧ cfg.todayChannelId > 0 then true
        else if cfg.reminderChannelId > 0 ∧ e.channelFound then true
        else false
      if e.deliveryRaises then ({ r with sent := true }, attempted)
      else ({ r with sent := true }, attempted)
  else (r, false)

/-- The whole-cache state effect of one `check_reminders` sweep. -/
def check_reminders (now : Int) (rs : List (Nat × List ReminderRec)) :
    List (Nat × List ReminderRec) :=
  rs.map (fun ul => (ul.1, ul.2.map (sweepUpdate now)))

/-- Iterated sweeps over one reminder, counting its outbound delivery calls. -/
def runSweeps (cfg : SweepCfg) : List (Int × SweepEnv) → ReminderRec → ReminderRec × Nat
  | [], r => (r, 0)
  | (now, e) :: rest, r =>
    let step := sweepOneE cfg e now r
    let next := runSweeps cfg rest step.1
    (next.1, (if step.2 then 1 else 0) + next.2)

/-! ## Order acceptance: the reminder-scheduling tail of `process_order_message` -/

/-- `ReminderService.add_reminder`'s record for the given fire time and tier. -/
def mk_reminder (t : Int) (msg author url pickup deal phone remark : String)
    (summary : Bool) : ReminderRec :=
  { time := t, message := msg, author := author, jump_url := url, pickup_date := pickup,
    deal_method := deal, phone := phone, remark := remark, summary_only := summary,
    sent := false }

/-- The reminder-scheduling tail of `process_order_message`, run after an order is
accepted.  Times are epoch seconds (`timedelta(days=2)` = 172800 s).  Returns the
reminders created, in creation order, and whether the immediate `<2 days` embed
was sent to the reminder channel (which requires the pickup to still be in the
future, `REMINDER_CHANNEL_ID > 0`, and both channel and target user to resolve). -/
def process_order_reminders (now dt_pickup : Int) (reminderChannelId : Int)
    (channelFound targetUserFound : Bool)
    (msg author url pickup deal phone remark : String) : List ReminderRec × Bool :=
  let two_days_before := dt_pickup - 2 * 86400
  let advance : List ReminderRec × Bool :=
    if two_days_before > now then
      ([mk_reminder two_days_before msg author url pickup deal phone remark false], false)
    else if dt_pickup > now ∧ reminderChannelId > 0 ∧ channelFound ∧ targetUserFound then
      ([], true)
    else ([], false)
  let summaryPart : List ReminderRec :=
    if dt_pickup > now then [mk_reminder dt_pickup msg author url pickup deal phone remark true]
    else []
  (advance.1 ++ summaryPart, advance.2)

/-! ## RateLimiter -/

/-- Modelled from the spec: the RateLimiter of §4.8 is not present in `src/`;
its contract is a sliding one-minute window per user identifier.  State is
the per-user list of recorded timestamps (epoch seconds). -/
def rlRecent (now : Int) (ts : List Int) : List Int :=
  ts.filter (fun t => now - t < 60)

/-- Modelled from the spec: one rate-limit check.  Reject when the count of
timestamps within the trailing 60 seconds meets or exceeds the ceiling;
otherwise record the new timestamp and allow. -/
def rlStep (ceiling : Nat) (st : List (Nat × List Int)) (ev : Nat × Int) :
    Bool × List (Nat × List Int) :=
  let ts := alistGetD st ev.1 []
  if (rlRecent ev.2 ts).length ≥ ceiling then (false, st)
  else (true, alistSet st ev.1 (ts ++ [ev.2]))

/-- Modelled from the spec: a run of rate-limit checks over an event sequence,
returning the per-event decisions and the final state. -/
def rlRun (ceiling : Nat) : List (Nat × Int) → List (Nat × List Int) →
    List Bool × List (Nat × List Int)
  | [], st => ([], st)
  | ev :: rest, st =>
    let step := rlStep ceiling st ev
    let next := rlRun ceiling rest step.2
    (step.1 :: next.1, next.2)

/-! ## Consolidator lemmas and claims C8, C10 -/

theorem alistGet_dictAdd_self (d : List (String × Int)) (k : String) (v : Int) :
    alistGet (dictAdd d k v) k = some ((alistGet d k).getD 0 + v) := by
  induction d with
  | nil => simp [dictAdd, alistGet]
  | cons kv rest ih =>
    by_cases h : kv.1 = k
    · simp [dictAdd, alistGet, h]
    · simp [dictAdd, alistGet, h, ih]

theorem alistGet_dictAdd_ne (d : List (String × Int)) (k k' : String) (v : Int)
    (h : k ≠ k') : alistGet (dictAdd d k v) k' = alistGet d k' := by
  induction d with
  | nil => simp [dictAdd, alistGet, h]
  | cons kv rest ih =>
    by_cases hk : kv.1 = k
    · simp [dictAdd, alistGet, hk, h]
    · simp [dictAdd, alistGet, hk, ih]

theorem consolidateStep_pos (d : List (String × Int)) (item : String)
    (hc : (parseItemKeyQty item).1 ≠ "" ∧ 1 ≤ (parseItemKeyQty item).2 ∧
          (parseItemKeyQty item).2 ≤ 1000) :
    consolidateStep d item = dictAdd d (parseItemKeyQty item).1 (parseItemKeyQty item).2 := by
  simp only [consolidateStep]
  exact if_pos hc

theorem consolidateStep_neg (d : List (String × Int)) (item : String)
    (hc : ¬ ((parseItemKeyQty item).1 ≠ "" ∧ 1 ≤ (parseItemKeyQty item).2 ∧
           (parseItemKeyQty item).2 ≤ 1000)) :
    consolidateStep d item = d := by
  simp only [consolidateStep]
  exact if_neg hc

theorem contribOf_pos (k item : String)
    (hc : (parseItemKeyQty item).1 ≠ "" ∧ 1 ≤ (parseItemKeyQty item).2 ∧
          (parseItemKeyQty item).2 ≤ 1000) :
    contribOf k item = if (parseItemKeyQty item).1 = k then (parseItemKeyQty item).2 else 0 := by
  simp only [contribOf, processedEntry, if_pos hc]

theorem contribOf_neg (k item : String)
    (hc : ¬ ((parseItemKeyQty item).1 ≠ "" ∧ 1 ≤ (parseItemKeyQty item).2 ∧
           (parseItemKeyQty item).2 ≤ 1000)) :
    contribOf k item = 0 := by
  simp only [contribOf, processedEntry, if_neg hc]

theorem hitsKey_pos (k item : String)
    (hc : (parseItemKeyQty item).1 ≠ "" ∧ 1 ≤ (parseItemKeyQty item).2 ∧
          (parseItemKeyQty item).2 ≤ 1000) :
    hitsKey k item = decide ((parseItemKeyQty item).1 = k) := by
  simp only [hitsKey, processedEntry, if_pos hc]

theorem hitsKey_neg (k item : String)
    (hc : ¬ ((parseItemKeyQty item).1 ≠ "" ∧ 1 ≤ (parseItemKeyQty item).2 ∧
           (parseItemKeyQty item).2 ≤ 1000)) :
    hitsKey k item = false := by
  simp only [hitsKey, processedEntry, if_neg hc]

theorem consolidate_fold_present (l : List String) (d : List (String × Int)) (k : String)
    (v : Int) (hd : alistGet d k = some v) :
    alistGet (l.foldl consolidateStep d) k = some (v + (l.map (contribOf k)).sum) := by
  induction l generalizing d v with
  | nil => simpa using hd
  | cons item rest ih =>
    simp only [List.foldl_cons, List.map_cons, List.sum_cons]
    by_cases hc : (parseItemKeyQty item).1 ≠ "" ∧ 1 ≤ (parseItemKeyQty item).2 ∧
        (parseItemKeyQty item).2 ≤ 1000
    · rw [consolidateStep_pos d item hc, contribOf_pos k item hc]
      by_cases hk : (parseItemKeyQty item).1 = k
      · have hget : alistGet (dictAdd d (parseItemKeyQty item).1 (parseItemKeyQty item).2) k
            = some (v + (parseItemKeyQty item).2) := by
          rw [hk, alistGet_dictAdd_self, hd]; rfl
        rw [ih _ _ hget, if_pos hk]
        congr 1; ring
      · have hget : alistGet (dictAdd d (parseItemKeyQty item).1 (parseItemKeyQty item).2) k
            = some v := by
          rw [alistGet_dictAdd_ne _ _ _ _ hk, hd]
        rw [ih _ _ hget, if_neg hk]
        congr 1; ring
    · rw [consolidateStep_neg d item hc, contribOf_neg k item hc, ih d v hd]
      congr 1; ring

theorem consolidate_fold_absent (l : List String) (d : List (String × Int)) (k : String)
    (hd : alistGet d k = none) :
    alistGet (l.foldl consolidateStep d) k =
      if l.any (hitsKey k) then some ((l.map (contribOf k)).sum) else none := by
  induction l generalizing d with
  | nil => simpa using hd
  | cons item rest ih =>
    simp only [List.foldl_cons, List.any_cons, List.map_cons, List.sum_cons]
    by_cases hc : (parseItemKeyQty item).1 ≠ "" ∧ 1 ≤ (parseItemKeyQty item).2 ∧
        (parseItemKeyQty item).2 ≤ 1000
    · rw [consolidateStep_pos d item hc, contribOf_pos k item hc, hitsKey_pos k item hc]
      by_cases hk : (parseItemKeyQty item).1 = k
      · have hget : alistGet (dictAdd d (parseItemKeyQty item).1 (parseItemKeyQty item).2) k
            = some ((parseItemKeyQty item).2) := by
          rw [hk, alistGet_dictAdd_self, hd]; simp
        rw [consolidate_fold_present rest _ _ _ hget, if_pos hk]
        simp [hk]
      · have hget : alistGet (dictAdd d (parseItemKeyQty item).1 (parseItemKeyQty item).2) k
            = none := by
          rw [alistGet_dictAdd_ne _ _ _ _ hk, hd]
        rw [ih _ hget, if_neg hk]
        simp [hk]
    · rw [consolidateStep_neg d item hc, contribOf_neg k item hc, hitsKey_neg k item hc,
        ih d hd]
      simp

theorem alistGet_consolidate (l : List String) (k : String) :
    alistGet (consolidate_items l) k =
      if l.any (hitsKey k) then some ((l.map (contribOf k)).sum) else none := by
  rw [consolidate_items, consolidate_fold_absent l [] k (by simp [alistGet])]

theorem perm_any_eq {α : Type} {l₁ l₂ : List α} (h : l₁.Perm l₂) (p : α → Bool) :
    l₁.any p = l₂.any p := by
  rcases ha : l₁.any p with _ | _ <;> rcases hb : l₂.any p with _ | _
  · rfl
  · exfalso
    rcases List.any_eq_true.mp hb with ⟨x, hx, hpx⟩
    have hcon := List.any_eq_true.mpr ⟨x, h.mem_iff.mpr hx, hpx⟩
    rw [ha] at hcon
    exact Bool.false_ne_true hcon
  · exfalso
    rcases List.any_eq_true.mp ha with ⟨x, hx, hpx⟩
    have hcon := List.any_eq_true.mpr ⟨x, h.mem_iff.mp hx, hpx⟩
    rw [hb] at hcon
    exact Bool.false_ne_true hcon
  · rfl

/-- C8. `Consolidator.consolidate` is order-independent: consolidating any
permutation of a multiset of item strings yields the same product-to-total
map (same lookup for every key); `consolidate(["A × 1","A × 2","B × 1"])`
equals `{A:3, B:1}`; and a quantity whose text fails to parse as an integer
defaults to 1. -/
theorem spec_C8 :
    (∀ (l₁ l₂ : List String), l₁.Perm l₂ →
       ∀ k, alistGet (consolidate_items l₁) k = alistGet (consolidate_items l₂) k)
    ∧ consolidate_items ["A × 1", "A × 2", "B × 1"] = [("A", 3), ("B", 1)]
    ∧ (parseItemKeyQty "A × b").2 = 1 := by
  refine ⟨?_, by decide, by decide⟩
  intro l₁ l₂ h k
  rw [alistGet_consolidate, alistGet_consolidate, perm_any_eq h,
    (h.map (contribOf k)).sum_eq]

/-- Witness for C8 at a concrete permutation. -/
theorem spec_C8_witness :
    alistGet (consolidate_items ["B × 1", "A × 2", "A × 1"]) "A"
      = alistGet (consolidate_items ["A × 1", "A × 2", "B × 1"]) "A" :=
  spec_C8.1 _ _ (by decide) "A"

/-! ## Split-structure lemmas and claim C10 -/

theorem pySplit1_ne_nil (s : Char) (l : List Char) : pySplit1 s l ≠ [] := by
  induction l with
  | nil => simp [pySplit1]
  | cons c rest ih =>
    by_cases h : c = s
    · simp [pySplit1, h]
    · rcases hr : pySplit1 s rest with _ | ⟨p, ps⟩
      · exact absurd hr ih
      · simp [pySplit1, h, hr]

theorem pySplit1_no_sep (s : Char) (l : List Char) (h : s ∉ l) : pySplit1 s l = [l] := by
  induction l with
  | nil => rfl
  | cons c rest ih =>
    have hcs : ¬ c = s := fun hc => h (hc ▸ List.mem_cons_self c rest)
    have hrest : s ∉ rest := fun hm => h (List.mem_cons_of_mem c hm)
    simp [pySplit1, hcs, ih hrest]

theorem pySplit1_len2 (s : Char) (l : List Char) (h : s ∈ l) :
    2 ≤ (pySplit1 s l).length := by
  induction l with
  | nil => cases h
  | cons c rest ih =>
    by_cases hc : c = s
    · have h1 := pySplit1_ne_nil s rest
      have : 1 ≤ (pySplit1 s rest).length := by
        cases hr : pySplit1 s rest with
        | nil => exact absurd hr h1
        | cons a t => simp
      simp only [pySplit1, if_pos hc, List.length_cons]
      omega
    · have hrest : s ∈ rest := by
        rcases List.mem_cons.mp h with h1 | h2
        · exact absurd h1.symm hc
        · exact h2
      rcases hr : pySplit1 s rest with _ | ⟨p, ps⟩
      · exact absurd hr (pySplit1_ne_nil s rest)
      · have := ih hrest
        rw [hr] at this
        simp only [pySplit1, if_neg hc, hr, List.length_cons] at this ⊢
        omega

theorem pySplit1_head_spec (s : Char) (l : List Char) (h : s ∈ l) :
    ∃ pre post, l = pre ++ s :: post ∧ s ∉ pre ∧ (pySplit1 s l).headD [] = pre := by
  induction l with
  | nil => cases h
  | cons c rest ih =>
    by_cases hc : c = s
    · refine ⟨[], rest, by simp [hc], by simp, ?_⟩
      simp [pySplit1, hc]
    · have hrest : s ∈ rest := by
        rcases List.mem_cons.mp h with h1 | h2
        · exact absurd h1.symm hc
        · exact h2
      rcases ih hrest with ⟨pre, post, heq, hpre, hhead⟩
      rcases hr : pySplit1 s rest with _ | ⟨p, ps⟩
      · exact absurd hr (pySplit1_ne_nil s rest)
      · refine ⟨c :: pre, post, by simp [heq], ?_, ?_⟩
        · intro hm
          rcases List.mem_cons.mp hm with h1 | h2
          · exact hc h1.symm
          · exact hpre h2
        · rw [hr] at hhead
          simp only [pySplit1, if_neg hc, hr, List.headD_cons] at hhead ⊢
          rw [hhead]

theorem pySplit1_last_spec (s : Char) (l : List Char) (h : s ∈ l) :
    ∃ pre post, l = pre ++ s :: post ∧ s ∉ post ∧ (pySplit1 s l).getLastD [] = post := by
  induction l with
  | nil => cases h
  | cons c rest ih =>
    by_cases hrest : s ∈ rest
    · rcases ih hrest with ⟨pre, post, heq, hpost, hlast⟩
      have hlen := pySplit1_len2 s rest hrest
      rcases hr : pySplit1 s rest with _ | ⟨p, ps⟩
      · exact absurd hr (pySplit1_ne_nil s rest)
      · rw [hr] at hlast hlen
        have hps : ps ≠ [] := by
          intro hnil
          rw [hnil] at hlen
          simp at hlen
        by_cases hc : c = s
        · refine ⟨c :: pre, post, by simp [heq], hpost, ?_⟩
          simp only [pySplit1, if_pos hc, hr]
          rw [List.getLastD_eq_getLast?] at hlast ⊢
          rw [List.getLast?_cons_cons]
          exact hlast
        · refine ⟨c :: pre, post, by simp [heq], hpost, ?_⟩
          simp only [pySplit1, if_neg hc, hr]
          rw [List.getLastD_eq_getLast?] at hlast ⊢
          cases ps with
          | nil => exact absurd rfl hps
          | cons q qs =>
            rw [List.getLast?_cons_cons] at hlast ⊢
            exact hlast
    · have hc : c = s := by
        rcases List.mem_cons.mp h with h1 | h2
        · exact h1.symm
        · exact absurd h2 hrest
      refine ⟨[], rest, by simp [hc], hrest, ?_⟩
      simp [pySplit1, hc, pySplit1_no_sep s rest hrest]

theorem mem_replaceTimes_x (l : List Char)
    (h : l.contains '×' = true ∨ l.contains 'x' = true) : 'x' ∈ replaceTimes l := by
  rcases h with h | h
  · have hm : '×' ∈ l := by simpa using h
    have : (if ('×' : Char) = '×' then 'x' else '×') ∈ replaceTimes l :=
      List.mem_map_of_mem _ hm
    simpa using this
  · have hm : 'x' ∈ l := by simpa using h
    have : (if ('x' : Char) = '×' then 'x' else 'x') ∈ replaceTimes l :=
      List.mem_map_of_mem _ hm
    simpa using this

/-- C10. When an item string contains `×` or `x`, `consolidate_items` keys it by
the stripped text before the FIRST `x` of the `×`→`x`-normalized item, and takes
its quantity text from after the LAST `x`; a product whose own name contains the
letter `x`, such as `"Box cake × 2"`, is therefore recorded under a key truncated
at the first `x` of its name (`"Bo"`). -/
theorem spec_C10 :
    (∀ item : String,
      item.data.contains '×' = true ∨ item.data.contains 'x' = true →
      (∃ pre post, replaceTimes item.data = pre ++ 'x' :: post ∧ 'x' ∉ pre ∧
         (parseItemKeyQty item).1 = String.mk (trimChars pre))
      ∧ (∃ pre post, replaceTimes item.data = pre ++ 'x' :: post ∧ 'x' ∉ post ∧
         (parseItemKeyQty item).2 =
           (pyInt (String.mk (trimChars post))).getD 1))
    ∧ consolidate_items ["Box cake × 2"] = [("Bo", 2)] := by
  constructor
  · intro item h
    have hx : 'x' ∈ replaceTimes item.data := mem_replaceTimes_x item.data h
    constructor
    · rcases pySplit1_head_spec 'x' (replaceTimes item.data) hx with ⟨pre, post, heq, hpre, hh⟩
      refine ⟨pre, post, heq, hpre, ?_⟩
      simp only [parseItemKeyQty, if_pos h, hh]
    · rcases pySplit1_last_spec 'x' (replaceTimes item.data) hx with ⟨pre, post, heq, hpost, hh⟩
      refine ⟨pre, post, heq, hpost, ?_⟩
      simp only [parseItemKeyQty, if_pos h, hh]
      rcases pyInt (String.mk (trimChars post)) with _ | n <;> rfl
  · decide

/-- Witness for C10 at `"Box cake × 2"`. -/
theorem spec_C10_witness :
    ∃ pre post, replaceTimes ("Box cake × 2").data = pre ++ 'x' :: post ∧ 'x' ∉ pre ∧
      (parseItemKeyQty "Box cake × 2").1 = String.mk (trimChars pre) :=
  ((spec_C10.1 "Box cake × 2") (by decide)).1

/-! ## OrderCache lemmas and claim C1 -/

theorem alistGet_alistSet_self {κ α : Type} [DecidableEq κ] (l : List (κ × α)) (k : κ) (v : α) :
    alistGet (alistSet l k v) k = some v := by
  induction l with
  | nil => simp [alistSet, alistGet]
  | cons kv rest ih =>
    by_cases h : kv.1 = k
    · simp [alistSet, alistGet, h]
    · simp [alistSet, alistGet, h, ih]

theorem alistGet_append_of_none {κ α : Type} [DecidableEq κ] (l m : List (κ × α)) (k : κ)
    (h : alistGet l k = none) : alistGet (l ++ m) k = alistGet m k := by
  induction l with
  | nil => simp
  | cons kv rest ih =>
    by_cases hk : kv.1 = k
    · simp [alistGet, hk] at h
    · simp only [alistGet, hk] at h
      simp [alistGet, hk, ih h]

theorem alistGet_ensureKey (c : OrderCache) (k : String) :
    alistGet (ensureKey c k) k = some (alistGetD c k []) := by
  rcases h : alistGet c k with _ | v
  · simp only [ensureKey, h, Option.isSome_none, Bool.false_eq_true, if_false]
    rw [alistGet_append_of_none c _ k h]
    simp [alistGet, alistGetD, h]
  · simp [ensureKey, h, alistGetD]

/-- C1 counterexample.  `add_order` called with a fresh permalink but a full
message byte-identical to an already-recorded order's text returns `true`
again (the record IS inserted and persisted): the cache has no second,
content-fingerprint dedup layer.  The claim requires `false` here. -/
theorem spec_C1_counterexample :
    (add_order [] [] "alice" "url1" "2025-01-01" "250101" "meet" "123" "" "MSG" "t0").1 = true
    ∧ (add_order
        (add_order [] [] "alice" "url1" "2025-01-01" "250101" "meet" "123" "" "MSG" "t0").2.1
        (add_order [] [] "alice" "url1" "2025-01-01" "250101" "meet" "123" "" "MSG" "t0").2.2
        "bob" "url2" "2025-01-01" "250101" "meet" "456" "" "MSG" "t1").1 = true
    ∧ (add_order
        (add_order [] [] "alice" "url1" "2025-01-01" "250101" "meet" "123" "" "MSG" "t0").2.1
        (add_order [] [] "alice" "url1" "2025-01-01" "250101" "meet" "123" "" "MSG" "t0").2.2
        "bob" "url2" "2025-01-01" "250101" "meet" "456" "" "MSG" "t1").2.2.length = 2 := by
  refine ⟨rfl, ?_, ?_⟩ <;> decide

/-- One-call characterization of `add_order`: reject (cache only key-initialized,
nothing persisted) when the permalink is already present under the day-key,
else append and persist the new record. -/
theorem add_order_spec (c : OrderCache) (db : List OrderRec)
    (author url pickup yymmdd deal phone remark msg now1 : String) :
    add_order c db author url pickup yymmdd deal phone remark msg now1 =
      if (alistGetD c yymmdd []).any (fun o => o.jump_url = url) then
        (false, ensureKey c yymmdd, db)
      else
        (true,
         alistSet (ensureKey c yymmdd) yymmdd
           ((alistGetD c yymmdd []) ++
            [{ yymmdd := yymmdd, yymm := String.mk (yymmdd.data.take 4), author := author,
               jump_url := url, pickup_date := pickup, deal_method := deal, phone := phone,
               remark := remark, full_message := msg, timestamp := now1 }]),
         db ++
            [{ yymmdd := yymmdd, yymm := String.mk (yymmdd.data.take 4), author := author,
               jump_url := url, pickup_date := pickup, deal_method := deal, phone := phone,
               remark := remark, full_message := msg, timestamp := now1 }]) := by
  have hD : alistGetD (ensureKey c yymmdd) yymmdd [] = alistGetD c yymmdd [] := by
    rw [alistGetD, alistGet_ensureKey]
    rfl
  simp only [add_order]
  rw [hD]

theorem alistGetD_alistSet (l : OrderCache) (k : String) (v : List OrderRec) :
    alistGetD (alistSet l k v) k [] = v := by
  rw [alistGetD, alistGet_alistSet_self]
  rfl

theorem ensureKey_of_isSome (c : OrderCache) (k : String)
    (h : (alistGet c k).isSome = true) : ensureKey c k = c := by
  simp [ensureKey, h]

/-- C1 (amended).  `add_order`'s duplicate detection is single-layered: within a
day-key a repeated permalink is rejected (returning `false`, leaving the cache
and the persisted list unchanged), while a fresh permalink is always inserted
and persisted — even when its full message text is byte-identical to an
already-recorded order's text. -/
theorem spec_C1_amended :
    ∀ (c : OrderCache) (db : List OrderRec)
      (author url pickup yymmdd deal phone remark msg now1 : String)
      (author2 url2 pickup2 deal2 phone2 remark2 msg2 now2 : String),
    (alistGetD c yymmdd []).any (fun o => o.jump_url = url) = false →
    (alistGetD c yymmdd []).any (fun o => o.jump_url = url2) = false →
    url2 ≠ url →
    (add_order c db author url pickup yymmdd deal phone remark msg now1).1 = true
    ∧ (add_order (add_order c db author url pickup yymmdd deal phone remark msg now1).2.1
         (add_order c db author url pickup yymmdd deal phone remark msg now1).2.2
         author2 url pickup2 yymmdd deal2 phone2 remark2 msg2 now2)
        = (false, (add_order c db author url pickup yymmdd deal phone remark msg now1).2.1,
           (add_order c db author url pickup yymmdd deal phone remark msg now1).2.2)
    ∧ (add_order (add_order c db author url pickup yymmdd deal phone remark msg now1).2.1
         (add_order c db author url pickup yymmdd deal phone remark msg now1).2.2
         author2 url2 pickup2 yymmdd deal2 phone2 remark2 msg now2).1 = true := by
  intro c db author url pickup yymmdd deal phone remark msg now1
  intro author2 url2 pickup2 deal2 phone2 remark2 msg2 now2
  intro hfresh hfresh2 hne
  rw [add_order_spec c db author url pickup yymmdd deal phone remark msg now1, hfresh]
  simp only [Bool.false_eq_true, if_false]
  have hget2 : alistGetD
      (alistSet (ensureKey c yymmdd) yymmdd
        ((alistGetD c yymmdd []) ++
         [{ yymmdd := yymmdd, yymm := String.mk (yymmdd.data.take 4), author := author,
            jump_url := url, pickup_date := pickup, deal_method := deal, phone := phone,
            remark := remark, full_message := msg, timestamp := now1 }]))
      yymmdd []
      = (alistGetD c yymmdd []) ++
         [{ yymmdd := yymmdd, yymm := String.mk (yymmdd.data.take 4), author := author,
            jump_url := url, pickup_date := pickup, deal_method := deal, phone := phone,
            remark := remark, full_message := msg, timestamp := now1 }] :=
    alistGetD_alistSet _ _ _
  have hens2 := ensureKey_of_isSome
    (alistSet (ensureKey c yymmdd) yymmdd
      ((alistGetD c yymmdd []) ++
       [{ yymmdd := yymmdd, yymm := String.mk (yymmdd.data.take 4), author := author,
          jump_url := url, pickup_date := pickup, deal_method := deal, phone := phone,
          remark := remark, full_message := msg, timestamp := now1 }]))
    yymmdd (by rw [alistGet_alistSet_self]; rfl)
  refine ⟨trivial, ?_, ?_⟩
  · rw [add_order_spec, hget2]
    have hdup : ((alistGetD c yymmdd []) ++
        [({ yymmdd := yymmdd, yymm := String.mk (yymmdd.data.take 4), author := author,
            jump_url := url, pickup_date := pickup, deal_method := deal, phone := phone,
            remark := remark, full_message := msg, timestamp := now1 } : OrderRec)]).any
        (fun o => o.jump_url = url) = true := by
      rw [List.any_append]
      simp
    rw [hdup]
    simp only [if_true]
    rw [hens2]
  · rw [add_order_spec, hget2]
    have hnodup : ((alistGetD c yymmdd []) ++
        [({ yymmdd := yymmdd, yymm := String.mk (yymmdd.data.take 4), author := author,
            jump_url := url, pickup_date := pickup, deal_method := deal, phone := phone,
            remark := remark, full_message := msg, timestamp := now1 } : OrderRec)]).any
        (fun o => o.jump_url = url2) = false := by
      rw [List.any_append]
      simp only [List.any_cons, List.any_nil, Bool.or_false, hfresh2, Bool.false_or]
      simp only [decide_eq_false_iff_not]
      intro hc
      exact hne hc.symm
    rw [hnodup]
    simp

/-- Witness for C1 (amended) from an empty cache. -/
theorem spec_C1_witness :
    (add_order [] [] "a" "u1" "p" "250101" "d" "ph" "r" "M" "t0").1 = true
    ∧ (add_order (add_order [] [] "a" "u1" "p" "250101" "d" "ph" "r" "M" "t0").2.1
         (add_order [] [] "a" "u1" "p" "250101" "d" "ph" "r" "M" "t0").2.2
         "b" "u1" "p2" "250101" "d2" "ph2" "r2" "M2" "t1")
        = (false, (add_order [] [] "a" "u1" "p" "250101" "d" "ph" "r" "M" "t0").2.1,
           (add_order [] [] "a" "u1" "p" "250101" "d" "ph" "r" "M" "t0").2.2)
    ∧ (add_order (add_order [] [] "a" "u1" "p" "250101" "d" "ph" "r" "M" "t0").2.1
         (add_order [] [] "a" "u1" "p" "250101" "d" "ph" "r" "M" "t0").2.2
         "b" "u2" "p2" "250101" "d2" "ph2" "r2" "M" "t1").1 = true :=
  spec_C1_amended [] [] "a" "u1" "p" "250101" "d" "ph" "r" "M" "t0"
    "b" "u2" "p2" "d2" "ph2" "r2" "M2" "t1" (by decide) (by decide) (by decide)

/-! ## ReminderScheduler: claim C3 -/

theorem sweepOneE_state (cfg : SweepCfg) (e : SweepEnv) (now : Int) (r : ReminderRec) :
    (sweepOneE cfg e now r).1 = sweepUpdate now r := by
  by_cases h : now ≥ r.time ∧ r.sent = false
  · by_cases ht : e.targetUserFound = false
    · simp [sweepOneE, sweepUpdate, h, ht]
    · by_cases hd : e.deliveryRaises <;> simp [sweepOneE, sweepUpdate, h, ht, hd]
  · simp [sweepOneE, sweepUpdate, h]

theorem sweepOneE_attempt_sent (cfg : SweepCfg) (e : SweepEnv) (now : Int) (r : ReminderRec)
    (h : (sweepOneE cfg e now r).2 = true) : (sweepOneE cfg e now r).1.sent = true := by
  by_cases hc : now ≥ r.time ∧ r.sent = false
  · rw [sweepOneE_state]
    simp [sweepUpdate, hc]
  · simp [sweepOneE, hc] at h

theorem runSweeps_of_sent (cfg : SweepCfg) (seq : List (Int × SweepEnv)) (r : ReminderRec)
    (h : r.sent = true) : runSweeps cfg seq r = (r, 0) := by
  induction seq generalizing r with
  | nil => rfl
  | cons p rest ih =>
    have hcond : ¬ (p.1 ≥ r.time ∧ r.sent = false) := by simp [h]
    have hstep : sweepOneE cfg p.2 p.1 r = (r, false) := by
      simp [sweepOneE, hcond]
    simp [runSweeps, hstep, ih r h]

/-- C3.  A reminder's `sent` flag is monotonic and never reversed; the sweep's
state effect is the same whether the outbound delivery succeeds, raises, or is
skipped because the target user cannot be fetched (the due reminder is marked
sent unconditionally); a reminder already marked sent is never the subject of
another delivery call; and over any sequence of sweeps a reminder receives at
most one outbound delivery call. -/
theorem spec_C3 :
    (∀ (cfg : SweepCfg) (e : SweepEnv) (now : Int) (r : ReminderRec),
       (sweepOneE cfg e now r).1 = sweepUpdate now r)
    ∧ (∀ (now : Int) (r : ReminderRec), r.sent = true → (sweepUpdate now r).sent = true)
    ∧ (∀ (now : Int) (r : ReminderRec), (sweepUpdate now r).sent = false → r.sent = false)
    ∧ (∀ (cfg : SweepCfg) (e : SweepEnv) (now : Int) (r : ReminderRec),
       r.sent = true → (sweepOneE cfg e now r).2 = false)
    ∧ (∀ (cfg : SweepCfg) (seq : List (Int × SweepEnv)) (r : ReminderRec),
       (runSweeps cfg seq r).2 ≤ 1) := by
  refine ⟨sweepOneE_state, ?_, ?_, ?_, ?_⟩
  · intro now r h
    by_cases hc : now ≥ r.time ∧ r.sent = false <;> simp [sweepUpdate, hc, h]
  · intro now r h
    by_cases hc : now ≥ r.time ∧ r.sent = false
    · simp [sweepUpdate, hc] at h
    · simpa [sweepUpdate, hc] using h
  · intro cfg e now r h
    have hc : ¬ (now ≥ r.time ∧ r.sent = false) := by simp [h]
    simp [sweepOneE, hc]
  · intro cfg seq r
    induction seq generalizing r with
    | nil => simp [runSweeps]
    | cons p rest ih =>
      rcases ha : (sweepOneE cfg p.2 p.1 r).2 with _ | _
      · have : (runSweeps cfg (p :: rest) r).2 = (runSweeps cfg rest (sweepOneE cfg p.2 p.1 r).1).2 := by
          simp [runSweeps, ha]
        rw [this]
        exact ih _
      · have hsent := sweepOneE_attempt_sent cfg p.2 p.1 r ha
        have hrest := runSweeps_of_sent cfg rest _ hsent
        simp [runSweeps, ha, hrest]

/-- Witness for C3 at a concrete already-sent reminder and sweep sequence. -/
theorem spec_C3_witness :
    (sweepUpdate 50 ⟨10, "m", "a", "u", "p", "d", "ph", "r", false, true⟩).sent = true
    ∧ (sweepOneE ⟨1, 1⟩ ⟨true, true, true⟩ 50
        ⟨10, "m", "a", "u", "p", "d", "ph", "r", false, true⟩).2 = false :=
  ⟨spec_C3.2.1 50 _ rfl, spec_C3.2.2.2.1 _ _ 50 _ rfl⟩

/-! ## Order acceptance: claims C4 -/

/-- C4 counterexample.  At acceptance time 1000000 with pickup 500000 (already
past), the advance fire-time 500000 − 172800 is in the past, yet NO immediate
one-shot notification is dispatched (and no reminders are created): the backfill
notification additionally requires the pickup itself to lie in the future.  The
claim requires an immediate dispatch whenever the advance fire-time is past. -/
theorem spec_C4_counterexample :
    (500000 - 2 * 86400 : Int) ≤ 1000000
    ∧ process_order_reminders 1000000 500000 1 true true "m" "a" "u" "p" "d" "ph" "r"
        = ([], false) := by
  refine ⟨by decide, ?_⟩
  rfl

/-- C4 (amended).  For every accepted order: if pickup − 2 days is still in the
future, a pending advance reminder at that fire-time is created, followed (in
creation order) by the summary reminder; if it is not, no advance reminder is
created and the immediate one-shot notification is dispatched if and only if the
pickup itself is still in the future, the reminder channel is configured, and
the channel and target user resolve; the summary reminder (summaryOnly = true,
fire-time = pickup) is created if and only if the pickup is still in the future. -/
theorem spec_C4_amended :
    ∀ (now dt rcid : Int) (chF tuF : Bool) (msg author url pickup deal phone remark : String),
    (dt - 2 * 86400 > now →
       process_order_reminders now dt rcid chF tuF msg author url pickup deal phone remark
         = ([mk_reminder (dt - 2 * 86400) msg author url pickup deal phone remark false,
             mk_reminder dt msg author url pickup deal phone remark true], false))
    ∧ ((process_order_reminders now dt rcid chF tuF msg author url pickup deal phone remark).1.filter
         (fun r => r.summary_only)
        = if dt > now then [mk_reminder dt msg author url pickup deal phone remark true] else [])
    ∧ ((process_order_reminders now dt rcid chF tuF msg author url pickup deal phone remark).1.filter
         (fun r => !r.summary_only)
        = if dt - 2 * 86400 > now then
            [mk_reminder (dt - 2 * 86400) msg author url pickup deal phone remark false]
          else [])
    ∧ ((process_order_reminders now dt rcid chF tuF msg author url pickup deal phone remark).2 = true
        ↔ (dt - 2 * 86400 ≤ now ∧ dt > now ∧ rcid > 0 ∧ chF = true ∧ tuF = true)) := by
  intro now dt rcid chF tuF msg author url pickup deal phone remark
  by_cases h2 : dt - 2 * 86400 > now
  · have hdt : dt > now := by omega
    simp only [process_order_reminders, if_pos h2, if_pos hdt]
    refine ⟨fun _ => rfl, ?_, ?_, ?_⟩
    · simp [mk_reminder, List.filter]
    · simp [mk_reminder, List.filter]
    · constructor
      · intro hfalse
        exact absurd hfalse (by simp)
      · rintro ⟨hc, -⟩
        omega
  · simp only [process_order_reminders, if_neg h2]
    refine ⟨fun hc => absurd hc h2, ?_, ?_, ?_⟩
    · by_cases hdt : dt > now
      · by_cases hcfg : dt > now ∧ rcid > 0 ∧ chF = true ∧ tuF = true
        · simp only [if_pos hdt, if_pos hcfg]
          simp [mk_reminder, List.filter]
        · simp only [if_pos hdt, if_neg hcfg]
          simp [mk_reminder, List.filter]
      · have hcfg : ¬ (dt > now ∧ rcid > 0 ∧ chF = true ∧ tuF = true) :=
          fun hcon => hdt hcon.1
        simp only [if_neg hdt, if_neg hcfg]
        simp [mk_reminder, List.filter]
    · by_cases hdt : dt > now
      · by_cases hcfg : dt > now ∧ rcid > 0 ∧ chF = true ∧ tuF = true
        · simp only [if_pos hdt, if_pos hcfg, if_neg h2]
          simp [mk_reminder, List.filter]
        · simp only [if_pos hdt, if_neg hcfg, if_neg h2]
          simp [mk_reminder, List.filter]
      · have hcfg : ¬ (dt > now ∧ rcid > 0 ∧ chF = true ∧ tuF = true) :=
          fun hcon => hdt hcon.1
        simp only [if_neg hdt, if_neg hcfg, if_neg h2]
        simp [mk_reminder, List.filter]
    · by_cases hdt : dt > now
      · by_cases hcfg : dt > now ∧ rcid > 0 ∧ chF = true ∧ tuF = true
        · simp only [if_pos hdt, if_pos hcfg]
          constructor
          · intro hcon
            exact ⟨by omega, hcfg.1, hcfg.2.1, hcfg.2.2.1, hcfg.2.2.2⟩
          · intro hcon
            trivial
        · simp only [if_pos hdt, if_neg hcfg]
          constructor
          · intro hfalse
            exact absurd hfalse (by simp)
          · rintro ⟨-, ha, hb, hc, hd⟩
            exact absurd ⟨ha, hb, hc, hd⟩ hcfg
      · have hcfg : ¬ (dt > now ∧ rcid > 0 ∧ chF = true ∧ tuF = true) :=
          fun hcon => hdt hcon.1
        simp only [if_neg hdt, if_neg hcfg]
        constructor
        · intro hfalse
          exact absurd hfalse (by simp)
        · rintro ⟨-, ha, hb, hc, hd⟩
          exact absurd ⟨ha, hb, hc, hd⟩ hcfg

/-- Witness for C4 (amended) at a pickup far in the future. -/
theorem spec_C4_witness :
    process_order_reminders 0 1000000 1 true true "m" "a" "u" "p" "d" "ph" "r"
      = ([mk_reminder (1000000 - 2 * 86400) "m" "a" "u" "p" "d" "ph" "r" false,
          mk_reminder 1000000 "m" "a" "u" "p" "d" "ph" "r" true], false) :=
  (spec_C4_amended 0 1000000 1 true true "m" "a" "u" "p" "d" "ph" "r").1 (by decide)

/-! ## RateLimiter: claim C9 (modelled from the spec) -/

/-- C9.  The rate limiter keeps a sliding one-minute window per user: a check is
rejected exactly when the count of that user's recorded timestamps within the
trailing 60 seconds meets or exceeds the ceiling (state unchanged), and
otherwise the new timestamp is recorded and the check allowed; with the default
ceiling 10, eleven simultaneous requests yield ten allows then a reject. -/
theorem spec_C9 :
    (∀ (ceiling : Nat) (st : List (Nat × List Int)) (u : Nat) (t : Int),
      ((rlRecent t (alistGetD st u [])).length ≥ ceiling →
         rlStep ceiling st (u, t) = (false, st))
      ∧ ((rlRecent t (alistGetD st u [])).length < ceiling →
         rlStep ceiling st (u, t) = (true, alistSet st u (alistGetD st u [] ++ [t]))))
    ∧ (rlRun 10 (List.replicate 11 (7, 100)) []).1
        = List.replicate 10 true ++ [false] := by
  constructor
  · intro ceiling st u t
    constructor
    · intro h
      simp [rlStep, h]
    · intro h
      have : ¬ ((rlRecent t (alistGetD st u [])).length ≥ ceiling) := by omega
      simp [rlStep, this]
  · decide

/-- Witness for C9: a user at the ceiling is rejected with the state unchanged. -/
theorem spec_C9_witness :
    rlStep 1 [(3, [90])] (3, 100) = (false, [(3, [90])]) :=
  ((spec_C9.1 1 [(3, [90])] 3 100).1 (by decide))

/-! ## Report totals: claim C5 -/

theorem sumValues_dictAdd (d : List (String × Int)) (k : String) (v : Int) :
    sumValues (dictAdd d k v) = sumValues d + v := by
  induction d with
  | nil => simp [sumValues, dictAdd]
  | cons kv rest ih =>
    by_cases h : kv.1 = k
    · simp only [dictAdd, if_pos h, sumValues, List.map_cons, List.sum_cons]
      simp only [sumValues] at ih ⊢
      ring
    · simp only [dictAdd, if_neg h, sumValues, List.map_cons, List.sum_cons]
      simp only [sumValues] at ih
      rw [ih]
      ring

theorem sumValues_foldPairs (ps : List (String × Int)) (d : List (String × Int)) :
    sumValues (ps.foldl (fun d pq => dictAdd d pq.1 pq.2) d)
      = sumValues d + (ps.map (fun pq => pq.2)).sum := by
  induction ps generalizing d with
  | nil => simp
  | cons pq rest ih =>
    simp only [List.foldl_cons, List.map_cons, List.sum_cons]
    rw [ih, sumValues_dictAdd]
    ring

theorem sumValues_accumOrder (d : List (String × Int)) (o : OrderRec) :
    sumValues (accumOrder d o) = sumValues d + sumValues (orderItems o) := by
  rw [accumOrder, sumValues_foldPairs]
  rfl

theorem sumValues_foldOrders (os : List OrderRec) (d : List (String × Int)) :
    sumValues (os.foldl accumOrder d)
      = sumValues d + (os.map (fun o => sumValues (orderItems o))).sum := by
  induction os generalizing d with
  | nil => simp
  | cons o rest ih =>
    simp only [List.foldl_cons, List.map_cons, List.sum_cons]
    rw [ih, sumValues_accumOrder]
    ring

theorem sumValues_dayItems (os : List OrderRec) :
    sumValues (dayItems os) = (os.map (fun o => sumValues (orderItems o))).sum := by
  rw [dayItems, sumValues_foldOrders]
  simp [sumValues]

theorem sumValues_foldDays (days : List (String × List OrderRec)) (d : List (String × Int)) :
    sumValues (days.foldl (fun acc kv => kv.2.foldl accumOrder acc) d)
      = sumValues d + (days.map (fun kv => sumValues (dayItems kv.2))).sum := by
  induction days generalizing d with
  | nil => simp
  | cons kv rest ih =>
    simp only [List.foldl_cons, List.map_cons, List.sum_cons]
    rw [ih, sumValues_foldOrders, sumValues_dayItems]
    ring

theorem insertByKey_perm (x : String × List OrderRec) (l : List (String × List OrderRec)) :
    (insertByKey x l).Perm (x :: l) := by
  induction l with
  | nil => exact List.Perm.refl _
  | cons y ys ih =>
    by_cases h : x.1 < y.1
    · simp only [insertByKey, if_pos h]
      exact List.Perm.refl _
    · simp only [insertByKey, if_neg h]
      exact (ih.cons y).trans (List.Perm.swap x y ys)

theorem sortByKey_perm (l : List (String × List OrderRec)) : (sortByKey l).Perm l := by
  induction l with
  | nil => exact List.Perm.refl _
  | cons x xs ih =>
    simp only [sortByKey, List.foldr_cons]
    exact (insertByKey_perm x _).trans (ih.cons x)

theorem alistGet_of_mem_nodup (c : OrderCache) (kv : String × List OrderRec)
    (hnd : (c.map Prod.fst).Nodup) (hm : kv ∈ c) : alistGet c kv.1 = some kv.2 := by
  induction c with
  | nil => cases hm
  | cons hd tl ih =>
    rcases List.mem_cons.mp hm with h1 | h2
    · rw [h1]
      simp [alistGet]
    · have hne : hd.1 ≠ kv.1 := by
        intro he
        have : kv.1 ∈ tl.map Prod.fst := List.mem_map_of_mem Prod.fst h2
        rw [← he] at this
        exact (List.nodup_cons.mp hnd).1 this
      simp only [alistGet, if_neg hne]
      exact ih (List.nodup_cons.mp hnd).2 h2

/-- C5.  For every cache contents and month-key (with the cache's day-keys
unique, as a Python dict's keys are), the grand month total of
`format_month_content` equals the sum over the month's day-keys of the
`format_orders_content` total for that day, and each day subtotal printed by
the month report equals that day's own report total. -/
theorem spec_C5 :
    ∀ (c : OrderCache) (yymm : String), (c.map Prod.fst).Nodup →
    format_month_content_total c yymm
        = ((monthMatching c yymm).map (fun kv => format_orders_content_total c kv.1)).sum
    ∧ ∀ kv ∈ sortByKey (monthMatching c yymm),
        month_day_subtotal kv.2 = format_orders_content_total c kv.1 := by
  intro c yymm hnd
  have hdayTotal : ∀ kv ∈ monthMatching c yymm,
      format_orders_content_total c kv.1 = sumValues (dayItems kv.2) := by
    intro kv hm
    have hmc : kv ∈ c := List.mem_of_mem_filter hm
    rw [format_orders_content_total, alistGetD, alistGet_of_mem_nodup c kv hnd hmc]
    rfl
  constructor
  · rw [format_month_content_total, month_total_all_items, sumValues_foldDays]
    have hperm := sortByKey_perm (monthMatching c yymm)
    have hmapeq : (sortByKey (monthMatching c yymm)).map (fun kv => sumValues (dayItems kv.2))
        = (sortByKey (monthMatching c yymm)).map
            (fun kv => format_orders_content_total c kv.1) :=
      List.map_congr_left (fun kv hm => (hdayTotal kv (hperm.mem_iff.mp hm)).symm)
    rw [hmapeq, (hperm.map (fun kv => format_orders_content_total c kv.1)).sum_eq]
    simp [sumValues]
  · intro kv hm
    rw [month_day_subtotal, hdayTotal kv ((sortByKey_perm _).mem_iff.mp hm)]

/-- Witness for C5 on a one-day cache. -/
theorem spec_C5_witness :
    format_month_content_total sampleCacheC5 "2501"
      = ((monthMatching sampleCacheC5 "2501").map
          (fun kv => format_orders_content_total sampleCacheC5 kv.1)).sum :=
  (spec_C5 sampleCacheC5 "2501" (by decide)).1

/-! ## DateParser: claims C6 and C7 -/

theorem digitsVal1 (a : Char) : digitsVal [a] = digitVal a := by
  simp [digitsVal]

theorem digitsVal2 (a b : Char) : digitsVal [a, b] = 10 * digitVal a + digitVal b := by
  simp [digitsVal]

theorem digitsVal4 (a b c d : Char) :
    digitsVal [a, b, c, d]
      = 1000 * digitVal a + 100 * digitVal b + 10 * digitVal c + digitVal d := by
  simp [digitsVal]
  ring

theorem daysInMonth_le (y m : Nat) : daysInMonth y m ≤ 31 := by
  rw [daysInMonth]
  split_ifs <;> omega

theorem rangeOk_of_datetimeValid (y m d : Nat) (hv : datetimeValid y m d = true) :
    rangeOk m d = true := by
  have hle := daysInMonth_le y m
  simp only [datetimeValid, decide_eq_true_eq] at hv
  simp only [rangeOk, decide_eq_true_eq]
  omega

theorem dayKeyOf_length (y m d : Nat) : (dayKeyOf y m d).length = 6 := by
  rw [dayKeyOf, String.length_append, String.length_append]
  rfl

set_option maxHeartbeats 1600000 in
/-- The `YYYY年M月D日` universal case of C7, over arbitrary digit characters. -/
theorem parse_format_cjk (nowYear : Nat) (ys ms ds : List Char)
    (hyl : ys.length = 4) (hml : ms.length = 1 ∨ ms.length = 2)
    (hdl : ds.length = 1 ∨ ds.length = 2)
    (hys : ∀ c ∈ ys, c.isDigit = true) (hms : ∀ c ∈ ms, c.isDigit = true)
    (hds : ∀ c ∈ ds, c.isDigit = true)
    (hv : datetimeValid (digitsVal ys) (digitsVal ms) (digitsVal ds) = true) :
    parse_pickup_date_smart nowYear (String.mk (ys ++ '年' :: ms ++ '月' :: ds ++ ['日']))
      = some (⟨digitsVal ys, digitsVal ms, digitsVal ds, 9, 0⟩,
              dayKeyOf (digitsVal ys) (digitsVal ms) (digitsVal ds)) := by
  have hr := rangeOk_of_datetimeValid _ _ _ hv
  rcases ys with _ | ⟨y1, _ | ⟨y2, _ | ⟨y3, _ | ⟨y4, _ | ⟨y5, yt⟩⟩⟩⟩⟩ <;> simp at hyl
  have hy1 := hys y1 (by simp)
  have hy2 := hys y2 (by simp)
  have hy3 := hys y3 (by simp)
  have hy4 := hys y4 (by simp)
  rcases hml with hml | hml
  · rcases List.length_eq_one.mp hml with ⟨m1, rfl⟩
    have hm1 := hms m1 (by simp)
    rcases hdl with hdl | hdl
    · rcases List.length_eq_one.mp hdl with ⟨d1, rfl⟩
      have hd1 := hds d1 (by simp)
      simp only [digitsVal4, digitsVal1] at hr hv ⊢
      simp only [List.cons_append, List.nil_append]
      simp [parse_pickup_date_smart, validate_pickup_date, searchFirst, matchP1At, matchP2At,
        matchP3At, matchP4At, take4Digits, takeUpTo2, litChar, tryP2, tryP3, tryP4,
        hy1, hy2, hy3, hy4, hm1, hd1, hr, hv, mkPickup]
    · rcases List.length_eq_two.mp hdl with ⟨d1, d2, rfl⟩
      have hd1 := hds d1 (by simp)
      have hd2 := hds d2 (by simp)
      simp only [digitsVal4, digitsVal2, digitsVal1] at hr hv ⊢
      simp only [List.cons_append, List.nil_append]
      simp [parse_pickup_date_smart, validate_pickup_date, searchFirst, matchP1At, matchP2At,
        matchP3At, matchP4At, take4Digits, takeUpTo2, litChar, tryP2, tryP3, tryP4,
        hy1, hy2, hy3, hy4, hm1, hd1, hd2, hr, hv, mkPickup]
  · rcases List.length_eq_two.mp hml with ⟨m1, m2, rfl⟩
    have hm1 := hms m1 (by simp)
    have hm2 := hms m2 (by simp)
    rcases hdl with hdl | hdl
    · rcases List.length_eq_one.mp hdl with ⟨d1, rfl⟩
      have hd1 := hds d1 (by simp)
      simp only [digitsVal4, digitsVal2, digitsVal1] at hr hv ⊢
      simp only [List.cons_append, List.nil_append]
      simp [parse_pickup_date_smart, validate_pickup_date, searchFirst, matchP1At, matchP2At,
        matchP3At, matchP4At, take4Digits, takeUpTo2, litChar, tryP2, tryP3, tryP4,
        hy1, hy2, hy3, hy4, hm1, hm2, hd1, hr, hv, mkPickup]
    · rcases List.length_eq_two.mp hdl with ⟨d1, d2, rfl⟩
      have hd1 := hds d1 (by simp)
      have hd2 := hds d2 (by simp)
      simp only [digitsVal4, digitsVal2] at hr hv ⊢
      simp only [List.cons_append, List.nil_append]
      simp [parse_pickup_date_smart, validate_pickup_date, searchFirst, matchP1At, matchP2At,
        matchP3At, matchP4At, take4Digits, takeUpTo2, litChar, tryP2, tryP3, tryP4,
        hy1, hy2, hy3, hy4, hm1, hm2, hd1, hd2, hr, hv, mkPickup]

set_option maxHeartbeats 1600000 in
/-- The `YYYY-M-D` universal case of C7. -/
theorem parse_format_dash (nowYear : Nat) (ys ms ds : List Char)
    (hyl : ys.length = 4) (hml : ms.length = 1 ∨ ms.length = 2)
    (hdl : ds.length = 1 ∨ ds.length = 2)
    (hys : ∀ c ∈ ys, c.isDigit = true) (hms : ∀ c ∈ ms, c.isDigit = true)
    (hds : ∀ c ∈ ds, c.isDigit = true)
    (hv : datetimeValid (digitsVal ys) (digitsVal ms) (digitsVal ds) = true) :
    parse_pickup_date_smart nowYear (String.mk (ys ++ '-' :: ms ++ '-' :: ds))
      = some (⟨digitsVal ys, digitsVal ms, digitsVal ds, 9, 0⟩,
              dayKeyOf (digitsVal ys) (digitsVal ms) (digitsVal ds)) := by
  have hr := rangeOk_of_datetimeValid _ _ _ hv
  rcases ys with _ | ⟨y1, _ | ⟨y2, _ | ⟨y3, _ | ⟨y4, _ | ⟨y5, yt⟩⟩⟩⟩⟩ <;> simp at hyl
  have hy1 := hys y1 (by simp)
  have hy2 := hys y2 (by simp)
  have hy3 := hys y3 (by simp)
  have hy4 := hys y4 (by simp)
  rcases hml with hml | hml
  · rcases List.length_eq_one.mp hml with ⟨m1, rfl⟩
    have hm1 := hms m1 (by simp)
    rcases hdl with hdl | hdl
    · rcases List.length_eq_one.mp hdl with ⟨d1, rfl⟩
      have hd1 := hds d1 (by simp)
      simp only [digitsVal4, digitsVal1] at hr hv ⊢
      simp only [List.cons_append, List.nil_append]
      simp [parse_pickup_date_smart, validate_pickup_date, searchFirst, matchP1At, matchP2At,
        matchP3At, matchP4At, take4Digits, takeUpTo2, litChar, tryP2, tryP3, tryP4,
        hy1, hy2, hy3, hy4, hm1, hd1, hr, hv, mkPickup]
    · rcases List.length_eq_two.mp hdl with ⟨d1, d2, rfl⟩
      have hd1 := hds d1 (by simp)
      have hd2 := hds d2 (by simp)
      simp only [digitsVal4, digitsVal2, digitsVal1] at hr hv ⊢
      simp only [List.cons_append, List.nil_append]
      simp [parse_pickup_date_smart, validate_pickup_date, searchFirst, matchP1At, matchP2At,
        matchP3At, matchP4At, take4Digits, takeUpTo2, litChar, tryP2, tryP3, tryP4,
        hy1, hy2, hy3, hy4, hm1, hd1, hd2, hr, hv, mkPickup]
  · rcases List.length_eq_two.mp hml with ⟨m1, m2, rfl⟩
    have hm1 := hms m1 (by simp)
    have hm2 := hms m2 (by simp)
    rcases hdl with hdl | hdl
    · rcases List.length_eq_one.mp hdl with ⟨d1, rfl⟩
      have hd1 := hds d1 (by simp)
      simp only [digitsVal4, digitsVal2, digitsVal1] at hr hv ⊢
      simp only [List.cons_append, List.nil_append]
      simp [parse_pickup_date_smart, validate_pickup_date, searchFirst, matchP1At, matchP2At,
        matchP3At, matchP4At, take4Digits, takeUpTo2, litChar, tryP2, tryP3, tryP4,
        hy1, hy2, hy3, hy4, hm1, hm2, hd1, hr, hv, mkPickup]
    · rcases List.length_eq_two.mp hdl with ⟨d1, d2, rfl⟩
      have hd1 := hds d1 (by simp)
      have hd2 := hds d2 (by simp)
      simp only [digitsVal4, digitsVal2] at hr hv ⊢
      simp only [List.cons_append, List.nil_append]
      simp [parse_pickup_date_smart, validate_pickup_date, searchFirst, matchP1At, matchP2At,
        matchP3At, matchP4At, take4Digits, takeUpTo2, litChar, tryP2, tryP3, tryP4,
        hy1, hy2, hy3, hy4, hm1, hm2, hd1, hd2, hr, hv, mkPickup]

set_option maxHeartbeats 1600000 in
/-- The `D/M/YYYY` universal case of C7. -/
theorem parse_format_slash (nowYear : Nat) (ys ms ds : List Char)
    (hyl : ys.length = 4) (hml : ms.length = 1 ∨ ms.length = 2)
    (hdl : ds.length = 1 ∨ ds.length = 2)
    (hys : ∀ c ∈ ys, c.isDigit = true) (hms : ∀ c ∈ ms, c.isDigit = true)
    (hds : ∀ c ∈ ds, c.isDigit = true)
    (hv : datetimeValid (digitsVal ys) (digitsVal ms) (digitsVal ds) = true) :
    parse_pickup_date_smart nowYear (String.mk (ds ++ '/' :: ms ++ '/' :: ys))
      = some (⟨digitsVal ys, digitsVal ms, digitsVal ds, 9, 0⟩,
              dayKeyOf (digitsVal ys) (digitsVal ms) (digitsVal ds)) := by
  have hr := rangeOk_of_datetimeValid _ _ _ hv
  rcases ys with _ | ⟨y1, _ | ⟨y2, _ | ⟨y3, _ | ⟨y4, _ | ⟨y5, yt⟩⟩⟩⟩⟩ <;> simp at hyl
  have hy1 := hys y1 (by simp)
  have hy2 := hys y2 (by simp)
  have hy3 := hys y3 (by simp)
  have hy4 := hys y4 (by simp)
  rcases hml with hml | hml
  · rcases List.length_eq_one.mp hml with ⟨m1, rfl⟩
    have hm1 := hms m1 (by simp)
    rcases hdl with hdl | hdl
    · rcases List.length_eq_one.mp hdl with ⟨d1, rfl⟩
      have hd1 := hds d1 (by simp)
      simp only [digitsVal4, digitsVal1] at hr hv ⊢
      simp only [List.cons_append, List.nil_append]
      simp [parse_pickup_date_smart, validate_pickup_date, searchFirst, matchP1At, matchP2At,
        matchP3At, matchP4At, take4Digits, takeUpTo2, litChar, tryP2, tryP3, tryP4,
        hy1, hy2, hy3, hy4, hm1, hd1, hr, hv, mkPickup]
    · rcases List.length_eq_two.mp hdl with ⟨d1, d2, rfl⟩
      have hd1 := hds d1 (by simp)
      have hd2 := hds d2 (by simp)
      simp only [digitsVal4, digitsVal2, digitsVal1] at hr hv ⊢
      simp only [List.cons_append, List.nil_append]
      simp [parse_pickup_date_smart, validate_pickup_date, searchFirst, matchP1At, matchP2At,
        matchP3At, matchP4At, take4Digits, takeUpTo2, litChar, tryP2, tryP3, tryP4,
        hy1, hy2, hy3, hy4, hm1, hd1, hd2, hr, hv, mkPickup]
  · rcases List.length_eq_two.mp hml with ⟨m1, m2, rfl⟩
    have hm1 := hms m1 (by simp)
    have hm2 := hms m2 (by simp)
    rcases hdl with hdl | hdl
    · rcases List.length_eq_one.mp hdl with ⟨d1, rfl⟩
      have hd1 := hds d1 (by simp)
      simp only [digitsVal4, digitsVal2, digitsVal1] at hr hv ⊢
      simp only [List.cons_append, List.nil_append]
      simp [parse_pickup_date_smart, validate_pickup_date, searchFirst, matchP1At, matchP2At,
        matchP3At, matchP4At, take4Digits, takeUpTo2, litChar, tryP2, tryP3, tryP4,
        hy1, hy2, hy3, hy4, hm1, hm2, hd1, hr, hv, mkPickup]
    · rcases List.length_eq_two.mp hdl with ⟨d1, d2, rfl⟩
      have hd1 := hds d1 (by simp)
      have hd2 := hds d2 (by simp)
      simp only [digitsVal4, digitsVal2] at hr hv ⊢
      simp only [List.cons_append, List.nil_append]
      simp [parse_pickup_date_smart, validate_pickup_date, searchFirst, matchP1At, matchP2At,
        matchP3At, matchP4At, take4Digits, takeUpTo2, litChar, tryP2, tryP3, tryP4,
        hy1, hy2, hy3, hy4, hm1, hm2, hd1, hd2, hr, hv, mkPickup]

set_option maxHeartbeats 1600000 in
/-- C6.  On a year-less `A/B` date the parser takes the first number as the day
exactly when it exceeds 12, otherwise as the month; `13/5` and `5/13` resolve to
the same calendar date (day 13, month 5) and `5/3` to month 5, day 3. -/
theorem spec_C6 :
    (∀ (nowYear : Nat) (as bs : List Char),
      (as.length = 1 ∨ as.length = 2) → (bs.length = 1 ∨ bs.length = 2) →
      (∀ c ∈ as, c.isDigit = true) → (∀ c ∈ bs, c.isDigit = true) →
      ∀ d m : Nat,
      d = (if digitsVal as > 12 then digitsVal as else digitsVal bs) →
      m = (if digitsVal as > 12 then digitsVal bs else digitsVal as) →
      rangeOk m d = true → datetimeValid nowYear m d = true →
      parse_pickup_date_smart nowYear (String.mk (as ++ '/' :: bs))
        = some (⟨nowYear, m, d, 9, 0⟩, dayKeyOf nowYear m d))
    ∧ parse_pickup_date_smart 2025 "13/5" = some (⟨2025, 5, 13, 9, 0⟩, "250513")
    ∧ parse_pickup_date_smart 2025 "5/13" = some (⟨2025, 5, 13, 9, 0⟩, "250513")
    ∧ parse_pickup_date_smart 2025 "5/3" = some (⟨2025, 5, 3, 9, 0⟩, "250503") := by
  refine ⟨?_, rfl, rfl, rfl⟩
  intro nowYear as bs hal hbl has hbs d m hd hm hr hv
  rcases hal with hal | hal
  · rcases List.length_eq_one.mp hal with ⟨a1, rfl⟩
    have ha1 := has a1 (by simp)
    rcases hbl with hbl | hbl
    · rcases List.length_eq_one.mp hbl with ⟨b1, rfl⟩
      have hb1 := hbs b1 (by simp)
      simp only [digitsVal1] at hd hm
      subst hd hm
      simp only [List.cons_append, List.nil_append]
      simp [parse_pickup_date_smart, validate_pickup_date, searchFirst, matchP1At, matchP2At,
        matchP3At, matchP4At, take4Digits, takeUpTo2, litChar, tryP2, tryP3, tryP4,
        ha1, hb1, hr, hv]
      simp only [gt_iff_lt] at hv
      simp [mkPickup, hv]
    · rcases List.length_eq_two.mp hbl with ⟨b1, b2, rfl⟩
      have hb1 := hbs b1 (by simp)
      have hb2 := hbs b2 (by simp)
      simp only [digitsVal1, digitsVal2] at hd hm
      subst hd hm
      simp only [List.cons_append, List.nil_append]
      simp [parse_pickup_date_smart, validate_pickup_date, searchFirst, matchP1At, matchP2At,
        matchP3At, matchP4At, take4Digits, takeUpTo2, litChar, tryP2, tryP3, tryP4,
        ha1, hb1, hb2, hr, hv]
      simp only [gt_iff_lt] at hv
      simp [mkPickup, hv]
  · rcases List.length_eq_two.mp hal with ⟨a1, a2, rfl⟩
    have ha1 := has a1 (by simp)
    have ha2 := has a2 (by simp)
    rcases hbl with hbl | hbl
    · rcases List.length_eq_one.mp hbl with ⟨b1, rfl⟩
      have hb1 := hbs b1 (by simp)
      simp only [digitsVal1, digitsVal2] at hd hm
      subst hd hm
      simp only [List.cons_append, List.nil_append]
      simp [parse_pickup_date_smart, validate_pickup_date, searchFirst, matchP1At, matchP2At,
        matchP3At, matchP4At, take4Digits, takeUpTo2, litChar, tryP2, tryP3, tryP4,
        ha1, ha2, hb1, hr, hv]
      simp only [gt_iff_lt] at hv
      simp [mkPickup, hv]
    · rcases List.length_eq_two.mp hbl with ⟨b1, b2, rfl⟩
      have hb1 := hbs b1 (by simp)
      have hb2 := hbs b2 (by simp)
      simp only [digitsVal2] at hd hm
      subst hd hm
      simp only [List.cons_append, List.nil_append]
      simp [parse_pickup_date_smart, validate_pickup_date, searchFirst, matchP1At, matchP2At,
        matchP3At, matchP4At, take4Digits, takeUpTo2, litChar, tryP2, tryP3, tryP4,
        ha1, ha2, hb1, hb2, hr, hv]
      simp only [gt_iff_lt] at hv
      simp [mkPickup, hv]

/-- Witness for C6 at `13/5` built from digit characters. -/
theorem spec_C6_witness :
    parse_pickup_date_smart 2025 (String.mk (['1', '3'] ++ '/' :: ['5']))
      = some (⟨2025, 5, 13, 9, 0⟩, dayKeyOf 2025 5 13) :=
  spec_C6.1 2025 ['1', '3'] ['5'] (Or.inr rfl) (Or.inl rfl) (by decide) (by decide)
    13 5 (by decide) (by decide) (by decide) (by decide)

/-- C7.  For every valid date input in the formats `YYYY年M月D日`, `YYYY-M-D`,
and `D/M/YYYY` (built from arbitrary digit characters, denoting a real calendar
date), the parser returns the timestamp fixed at 09:00 local time together with
the day-key `pad2(y mod 100) ++ pad2(m) ++ pad2(d)`, which has exactly 6 digits;
and when none of the four patterns matches, both outputs are empty (no
exception escapes). -/
theorem spec_C7 :
    (∀ (nowYear : Nat) (ys ms ds : List Char),
      ys.length = 4 → (ms.length = 1 ∨ ms.length = 2) → (ds.length = 1 ∨ ds.length = 2) →
      (∀ c ∈ ys, c.isDigit = true) → (∀ c ∈ ms, c.isDigit = true) →
      (∀ c ∈ ds, c.isDigit = true) →
      datetimeValid (digitsVal ys) (digitsVal ms) (digitsVal ds) = true →
      parse_pickup_date_smart nowYear (String.mk (ys ++ '年' :: ms ++ '月' :: ds ++ ['日']))
          = some (⟨digitsVal ys, digitsVal ms, digitsVal ds, 9, 0⟩,
                  dayKeyOf (digitsVal ys) (digitsVal ms) (digitsVal ds))
      ∧ parse_pickup_date_smart nowYear (String.mk (ys ++ '-' :: ms ++ '-' :: ds))
          = some (⟨digitsVal ys, digitsVal ms, digitsVal ds, 9, 0⟩,
                  dayKeyOf (digitsVal ys) (digitsVal ms) (digitsVal ds))
      ∧ parse_pickup_date_smart nowYear (String.mk (ds ++ '/' :: ms ++ '/' :: ys))
          = some (⟨digitsVal ys, digitsVal ms, digitsVal ds, 9, 0⟩,
                  dayKeyOf (digitsVal ys) (digitsVal ms) (digitsVal ds))
      ∧ dayKeyOf (digitsVal ys) (digitsVal ms) (digitsVal ds)
          = pad2 (digitsVal ys % 100) ++ pad2 (digitsVal ms) ++ pad2 (digitsVal ds)
      ∧ (dayKeyOf (digitsVal ys) (digitsVal ms) (digitsVal ds)).length = 6)
    ∧ (∀ (nowYear : Nat) (s : String),
        searchFirst matchP1At s.data = none → searchFirst matchP2At s.data = none →
        searchFirst matchP3At s.data = none → searchFirst matchP4At s.data = none →
        parse_pickup_date_smart nowYear s = none) := by
  constructor
  · intro nowYear ys ms ds hyl hml hdl hys hms hds hv
    exact ⟨parse_format_cjk nowYear ys ms ds hyl hml hdl hys hms hds hv,
           parse_format_dash nowYear ys ms ds hyl hml hdl hys hms hds hv,
           parse_format_slash nowYear ys ms ds hyl hml hdl hys hms hds hv,
           rfl, dayKeyOf_length _ _ _⟩
  · intro nowYear s h1 h2 h3 h4
    rw [parse_pickup_date_smart]
    split
    · rfl
    · rw [h1, tryP2, h2, tryP3, h3, tryP4, h4]

/-- Witness for C7 at `2025年12月19日`, `2025-12-19`, and `19/12/2025`. -/
theorem spec_C7_witness :
    parse_pickup_date_smart 2024 (String.mk (['2','0','2','5'] ++ '年' ::
        ['1','2'] ++ '月' :: ['1','9'] ++ ['日']))
      = some (⟨2025, 12, 19, 9, 0⟩, dayKeyOf 2025 12 19)
    ∧ (dayKeyOf 2025 12 19).length = 6 := by
  have h := spec_C7.1 2024 ['2','0','2','5'] ['1','2'] ['1','9'] rfl (Or.inr rfl)
    (Or.inr rfl) (by decide) (by decide) (by decide) (by decide)
  exact ⟨by simpa using h.1, by simpa using h.2.2.2.2⟩

/-! ## ContentParser: claim C2 -/

theorem itemsOfMatches_eq_filterMap (ms : List (List Char × List Char)) :
    itemsOfMatches ms = ms.filterMap specAcceptMatch := by
  induction ms with
  | nil => rfl
  | cons pq rest ih =>
    obtain ⟨p, ds⟩ := pq
    have hacc : specAcceptMatch (p, ds)
        = if trimChars p ≠ [] ∧ (trimChars p).length < 100 ∧
             1 ≤ digitsVal ds ∧ digitsVal ds ≤ 1000 then
            some (String.mk (trimChars p) ++ " × " ++ toString (digitsVal ds))
          else none := rfl
    by_cases h1 : trimChars p ≠ [] ∧ (trimChars p).length < 100
    · by_cases h2 : 0 < digitsVal ds ∧ digitsVal ds ≤ 1000
      · have hq : is_reasonable_quantity (digitsVal ds) = true := by
          simp only [is_reasonable_quantity, decide_eq_true_eq]
          exact h2
        simp only [itemsOfMatches, if_pos h1, hq, if_true, List.filterMap_cons]
        rw [hacc, if_pos ⟨h1.1, h1.2, by omega, h2.2⟩, ih]
      · have hq : is_reasonable_quantity (digitsVal ds) = false := by
          simp only [is_reasonable_quantity, decide_eq_false_iff_not]
          exact h2
        simp only [itemsOfMatches, if_pos h1, hq, Bool.false_eq_true, if_false,
          List.filterMap_cons]
        rw [hacc, if_neg (fun hcon => h2 ⟨by omega, hcon.2.2.2⟩), ih]
    · simp only [itemsOfMatches, if_neg h1, List.filterMap_cons]
      rw [hacc, if_neg (fun hcon => h1 ⟨hcon.1, hcon.2.1⟩), ih]

/-- C2 counterexample.  On `"訂單內容 abc x 1001"` the primary strategy finds the
match `("abc", 1001)`, whose quantity exceeds the reasonable bound — yet the
parse emits NOTHING for it (the item is dropped, not coerced to quantity 1, and
the result is the empty list).  The claim requires `"abc × 1"` to be emitted. -/
theorem spec_C2_counterexample :
    findAllItems (orderContentOf "訂單內容 abc x 1001")
        = [(['a', 'b', 'c'], ['1', '0', '0', '1'])]
    ∧ parse_order_content_smart "訂單內容 abc x 1001" = [] := by
  constructor <;> rfl

/-- C2 (amended).  Whenever the primary `<text> × <digits>` / `<text> x <digits>`
strategy finds at least one match, the parse result is exactly the per-match
rule applied to every match: the product text is trimmed and kept only if
nonempty and under the length ceiling, and the quantity is accepted as-is when
within the reasonable-quantity bound 1–1000 — otherwise the item is DROPPED
(the coerce-to-1 fallback in the source is dead code, since `int` cannot raise
on a digit capture). -/
theorem spec_C2_amended :
    ∀ text : String, pyIn contentMarker text.data = true →
    findAllItems (orderContentOf text) ≠ [] →
    parse_order_content_smart text
      = (findAllItems (orderContentOf text)).filterMap specAcceptMatch := by
  intro text hin hne
  rw [parse_order_content_smart, hin]
  simp only [Bool.true_eq_false, if_false]
  rw [if_pos hne]
  exact itemsOfMatches_eq_filterMap _

/-- Witness for C2 (amended) on a small in-bounds order message. -/
theorem spec_C2_witness :
    parse_order_content_smart "訂單內容 A x 2"
      = (findAllItems (orderContentOf "訂單內容 A x 2")).filterMap specAcceptMatch :=
  spec_C2_amended "訂單內容 A x 2" rfl (by decide)

end DiscordBot
